import Mathlib

/-!
Verification of the chess rule engine in src/chess_pygame.py.
The board is a list of rows, each row a list of optional pieces, mirroring the
Python nested-list representation; squares are (rank, file) integer pairs.
Python set results (squares_attacked_by) are modelled as lists with the same
membership, since the program only tests membership on them.
-/

namespace ChessPy

inductive Color where
  | w
  | b
deriving DecidableEq

inductive PieceType where
  | P
  | N
  | B
  | R
  | Q
  | K
deriving DecidableEq

structure Piece where
  type : PieceType
  color : Color
deriving DecidableEq

abbrev Board := List (List (Option Piece))

abbrev Square := Int × Int

abbrev Move := Square × Square

/-- in_bounds(r, c): 0 <= r < ROWS and 0 <= c < COLS, with ROWS = COLS = 8. -/
def in_bounds (r c : Int) : Bool :=
  0 ≤ r && r < 8 && 0 ≤ c && c < 8

/-- board[r][c] for in-bounds indices. -/
def cell (b : Board) (r c : Int) : Option Piece :=
  (b.getD r.toNat []).getD c.toNat none

/-- board[r][c] = v for in-bounds indices. -/
def setCell (b : Board) (r c : Int) (v : Option Piece) : Board :=
  b.set r.toNat ((b.getD r.toNat []).set c.toNat v)

/-- deep_copy_board: a fresh ROWS x COLS grid holding the same pieces. -/
def deep_copy_board (b : Board) : Board :=
  (List.range 8).map fun (r : Nat) => (List.range 8).map fun (c : Nat) => cell b r c

def back_rank (c : Color) : List (Option Piece) :=
  [some ⟨PieceType.R, c⟩, some ⟨PieceType.N, c⟩, some ⟨PieceType.B, c⟩,
   some ⟨PieceType.Q, c⟩, some ⟨PieceType.K, c⟩, some ⟨PieceType.B, c⟩,
   some ⟨PieceType.N, c⟩, some ⟨PieceType.R, c⟩]

def pawn_rank (c : Color) : List (Option Piece) :=
  List.replicate 8 (some ⟨PieceType.P, c⟩)

def empty_rank : List (Option Piece) :=
  List.replicate 8 (none : Option Piece)

/-- initial_board: the result of all the put(...) calls, row by row
(row 0 is the black back rank, row 7 the white back rank). -/
def initial_board : Board :=
  [back_rank Color.b, pawn_rank Color.b,
   empty_rank, empty_rank, empty_rank, empty_rank,
   pawn_rank Color.w, back_rank Color.w]

def enemy (c : Color) : Color :=
  match c with
  | Color.w => Color.b
  | Color.b => Color.w

/-- find_king: scan rows then columns, returning the first king of the color. -/
def find_king (b : Board) (color : Color) : Option Square :=
  ((List.range 8).flatMap fun (r : Nat) => (List.range 8).flatMap fun (c : Nat) =>
    match cell b r c with
    | some p =>
        if p.type = PieceType.K ∧ p.color = color then [((r : Int), (c : Int))] else []
    | none => []).head?

def rook_dirs : List (Int × Int) := [(-1, 0), (1, 0), (0, -1), (0, 1)]

def bishop_dirs : List (Int × Int) := [(-1, -1), (-1, 1), (1, -1), (1, 1)]

def knight_offsets : List (Int × Int) :=
  [(-2, -1), (-2, 1), (-1, -2), (-1, 2), (1, -2), (1, 2), (2, -1), (2, 1)]

def king_offsets : List (Int × Int) :=
  [(-1, -1), (-1, 0), (-1, 1), (0, -1), (0, 1), (1, -1), (1, 0), (1, 1)]

/-- One sliding-attack ray: add each in-bounds square, stopping after the first
occupied one.  Fuel 8 covers every ray on an 8 x 8 board. -/
def attack_ray (b : Board) (rr cc dr dc : Int) : Nat → List Square
  | 0 => []
  | fuel + 1 =>
      if in_bounds rr cc then
        (rr, cc) ::
          (if (cell b rr cc).isSome then []
           else attack_ray b (rr + dr) (cc + dc) dr dc fuel)
      else []

/-- The squares one piece attacks, per the branches of squares_attacked_by. -/
def piece_attacks (b : Board) (color : Color) (r c : Int) (t : PieceType) : List Square :=
  match t with
  | PieceType.P =>
      let d : Int := if color = Color.w then -1 else 1
      [(-1 : Int), 1].filterMap fun dc =>
        if in_bounds (r + d) (c + dc) then some (r + d, c + dc) else none
  | PieceType.N =>
      knight_offsets.filterMap fun (dr, dc) =>
        if in_bounds (r + dr) (c + dc) then some (r + dr, c + dc) else none
  | PieceType.K =>
      king_offsets.filterMap fun (dr, dc) =>
        if in_bounds (r + dr) (c + dc) then some (r + dr, c + dc) else none
  | PieceType.R =>
      rook_dirs.flatMap fun (dr, dc) => attack_ray b (r + dr) (c + dc) dr dc 8
  | PieceType.B =>
      bishop_dirs.flatMap fun (dr, dc) => attack_ray b (r + dr) (c + dc) dr dc 8
  | PieceType.Q =>
      (rook_dirs ++ bishop_dirs).flatMap fun (dr, dc) =>
        attack_ray b (r + dr) (c + dc) dr dc 8

/-- squares_attacked_by: all squares attacked by the given color.  The Python
set is modelled as a list with the same membership. -/
def squares_attacked_by (b : Board) (color : Color) : List Square :=
  (List.range 8).flatMap fun (r : Nat) => (List.range 8).flatMap fun (c : Nat) =>
    match cell b r c with
    | some p => if p.color = color then piece_attacks b color r c p.type else []
    | none => []

/-- is_in_check: the king square (when present) lies in the enemy attack map. -/
def is_in_check (b : Board) (color : Color) : Bool :=
  match find_king b color with
  | none => false
  | some k => decide (k ∈ squares_attacked_by b (enemy color))

/-- Pawn pseudo-legal moves: one forward, two forward from the start row,
then the two diagonal captures. -/
def pawn_moves (b : Board) (color : Color) (r c : Int) : List Move :=
  let d : Int := if color = Color.w then -1 else 1
  let start_row : Int := if color = Color.w then 6 else 1
  (if in_bounds (r + d) c ∧ cell b (r + d) c = none then
     ((r, c), (r + d, c)) ::
       (if r = start_row ∧ in_bounds (r + 2 * d) c ∧ cell b (r + 2 * d) c = none then
          [((r, c), (r + 2 * d, c))]
        else [])
   else []) ++
  ([(-1 : Int), 1].filterMap fun dc =>
    if in_bounds (r + d) (c + dc) then
      match cell b (r + d) (c + dc) with
      | some q => if q.color ≠ color then some ((r, c), (r + d, c + dc)) else none
      | none => none
    else none)

/-- Knight pseudo-legal moves: in-bounds L-shaped targets not holding a friend. -/
def knight_moves (b : Board) (color : Color) (r c : Int) : List Move :=
  knight_offsets.filterMap fun (dr, dc) =>
    if in_bounds (r + dr) (c + dc) then
      match cell b (r + dr) (c + dc) with
      | none => some ((r, c), (r + dr, c + dc))
      | some q => if q.color ≠ color then some ((r, c), (r + dr, c + dc)) else none
    else none

/-- One sliding-move ray: empty squares are destinations; an enemy square is a
final capture destination; a friendly square stops the ray. -/
def move_ray (b : Board) (color : Color) (r c rr cc dr dc : Int) : Nat → List Move
  | 0 => []
  | fuel + 1 =>
      if in_bounds rr cc then
        match cell b rr cc with
        | none => ((r, c), (rr, cc)) :: move_ray b color r c (rr + dr) (cc + dc) dr dc fuel
        | some q => if q.color ≠ color then [((r, c), (rr, cc))] else []
      else []

/-- Bishop/rook/queen pseudo-legal moves over the piece's direction set
(diagonal directions first, as in the source). -/
def slider_moves (b : Board) (color : Color) (r c : Int) (t : PieceType) : List Move :=
  let directions :=
    (if t = PieceType.B ∨ t = PieceType.Q then bishop_dirs else []) ++
    (if t = PieceType.R ∨ t = PieceType.Q then rook_dirs else [])
  directions.flatMap fun (dr, dc) => move_ray b color r c (r + dr) (c + dc) dr dc 8

/-- King pseudo-legal moves: in-bounds neighbors not holding a friend. -/
def king_moves (b : Board) (color : Color) (r c : Int) : List Move :=
  king_offsets.filterMap fun (dr, dc) =>
    if in_bounds (r + dr) (c + dc) then
      match cell b (r + dr) (c + dc) with
      | none => some ((r, c), (r + dr, c + dc))
      | some q => if q.color ≠ color then some ((r, c), (r + dr, c + dc)) else none
    else none

/-- The moves generated for the piece sitting at (r, c). -/
def piece_moves (b : Board) (color : Color) (r c : Int) (t : PieceType) : List Move :=
  match t with
  | PieceType.P => pawn_moves b color r c
  | PieceType.N => knight_moves b color r c
  | PieceType.B => slider_moves b color r c PieceType.B
  | PieceType.R => slider_moves b color r c PieceType.R
  | PieceType.Q => slider_moves b color r c PieceType.Q
  | PieceType.K => king_moves b color r c

/-- generate_pseudo_legal_moves: scan the board row-major and collect each
friendly piece's moves. -/
def generate_pseudo_legal_moves (b : Board) (color : Color) : List Move :=
  (List.range 8).flatMap fun (r : Nat) => (List.range 8).flatMap fun (c : Nat) =>
    match cell b r c with
    | some p => if p.color = color then piece_moves b color r c p.type else []
    | none => []

/-- make_move: copy the board, clear the source, auto-promote a pawn reaching
its final row, otherwise drop the moved piece on the destination. -/
def make_move (b : Board) (m : Move) : Board :=
  let r1 := m.1.1
  let c1 := m.1.2
  let r2 := m.2.1
  let c2 := m.2.2
  let new_board := deep_copy_board b
  let piece := cell new_board r1 c1
  let new_board := setCell new_board r1 c1 none
  match piece with
  | some p =>
      if p.type = PieceType.P ∧ r2 = (if p.color = Color.w then (0 : Int) else 7) then
        setCell new_board r2 c2 (some ⟨PieceType.Q, p.color⟩)
      else
        setCell new_board r2 c2 (some p)
  | none => setCell new_board r2 c2 none

/-- generate_legal_moves: the pseudo-legal moves whose simulated result does
not leave the mover in check. -/
def generate_legal_moves (b : Board) (color : Color) : List Move :=
  (generate_pseudo_legal_moves b color).filter fun m =>
    !is_in_check (make_move b m) color

/-- ai_choose_move, with random.choice modelled by an arbitrary index k into
the chosen pool (choice returns pool[k mod len] for some k). -/
def ai_choose_move (b : Board) (k : Nat) : Option Move :=
  let color := Color.b
  let moves := generate_legal_moves b color
  if moves.isEmpty then none
  else
    let capture_moves := moves.filter fun m => (cell b m.2.1 m.2.2).isSome
    let pool := if capture_moves.isEmpty then moves else capture_moves
    pool[k % pool.length]?

/-- The statement-level execution of make_move with the input board threaded
explicitly: the first component is the variable named board (never written),
the second the returned new_board. -/
def make_move_exec (b : Board) (m : Move) : Board × Board :=
  let r1 := m.1.1
  let c1 := m.1.2
  let r2 := m.2.1
  let c2 := m.2.2
  let s : Board × Board := (b, deep_copy_board b)
  let piece := cell s.2 r1 c1
  let s : Board × Board := (s.1, setCell s.2 r1 c1 none)
  match piece with
  | some p =>
      if p.type = PieceType.P ∧ r2 = (if p.color = Color.w then (0 : Int) else 7) then
        (s.1, setCell s.2 r2 c2 (some ⟨PieceType.Q, p.color⟩))
      else
        (s.1, setCell s.2 r2 c2 (some p))
  | none => (s.1, setCell s.2 r2 c2 none)

/-- Total number of occupied squares of a board. -/
def count_pieces (b : Board) : Nat :=
  (b.map fun row => row.countP fun p => p.isSome).sum

/-- The board has exactly 8 rows of exactly 8 squares. -/
def shapeOk (b : Board) : Bool :=
  b.length == 8 && b.all fun row => row.length == 8

/-- A move is well formed for color on board b: both squares in bounds, the
source holds a piece of that color, the target no piece of that color. -/
def move_wf (b : Board) (color : Color) (m : Move) : Prop :=
  in_bounds m.1.1 m.1.2 = true ∧ in_bounds m.2.1 m.2.2 = true ∧
  (∃ p : Piece, cell b m.1.1 m.1.2 = some p ∧ p.color = color) ∧
  (∀ q : Piece, cell b m.2.1 m.2.2 = some q → q.color ≠ color)

/-- A pin position: black rook e8, white rook e2, white king e1 (file index 4).
The white rook moving sideways exposes the white king to the black rook. -/
def pinned_board : Board :=
  [empty_rank.set 4 (some ⟨PieceType.R, Color.b⟩), empty_rank, empty_rank,
   empty_rank, empty_rank, empty_rank,
   empty_rank.set 4 (some ⟨PieceType.R, Color.w⟩),
   empty_rank.set 4 (some ⟨PieceType.K, Color.w⟩)]

/-- A position where black (the automated side) has exactly one capture:
black rook a8 versus white pawn a1 down the open a-file. -/
def capture_board : Board :=
  [empty_rank.set 0 (some ⟨PieceType.R, Color.b⟩), empty_rank, empty_rank,
   empty_rank, empty_rank, empty_rank, empty_rank,
   empty_rank.set 0 (some ⟨PieceType.P, Color.w⟩)]

/-- A board holding a lone white pawn one step from promotion, at (1, 0). -/
def promo_board : Board :=
  [empty_rank, empty_rank.set 0 (some ⟨PieceType.P, Color.w⟩), empty_rank,
   empty_rank, empty_rank, empty_rank, empty_rank, empty_rank]

/-- The board with no pieces at all. -/
def empty_board : Board :=
  [empty_rank, empty_rank, empty_rank, empty_rank,
   empty_rank, empty_rank, empty_rank, empty_rank]

end ChessPy

namespace ChessPy

/-! ### Square and indexing lemmas -/

lemma in_bounds_iff (r c : Int) :
    in_bounds r c = true ↔ 0 ≤ r ∧ r < 8 ∧ 0 ≤ c ∧ c < 8 := by
  simp only [in_bounds, Bool.and_eq_true, decide_eq_true_eq]
  omega

lemma getD_set_self {α : Type} (l : List α) (i : Nat) (v d : α) (h : i < l.length) :
    (l.set i v).getD i d = v := by
  rw [List.getD_eq_getElem?_getD, List.getElem?_set_self h, Option.getD_some]

lemma getD_set_ne {α : Type} (l : List α) (i j : Nat) (v d : α) (h : i ≠ j) :
    (l.set i v).getD j d = l.getD j d := by
  rw [List.getD_eq_getElem?_getD, List.getElem?_set_ne h, ← List.getD_eq_getElem?_getD]

lemma cell_setCell_self (b : Board) (r c : Int) (v : Option Piece)
    (hr : r.toNat < b.length) (hc : c.toNat < (b.getD r.toNat []).length) :
    cell (setCell b r c v) r c = v := by
  simp only [cell, setCell]
  rw [getD_set_self _ _ _ _ hr, getD_set_self _ _ _ _ hc]

lemma cell_setCell_ne (b : Board) (r c r' c' : Int) (v : Option Piece)
    (hne : r.toNat ≠ r'.toNat ∨ c.toNat ≠ c'.toNat) :
    cell (setCell b r c v) r' c' = cell b r' c' := by
  simp only [cell, setCell]
  rcases hne with h | h
  · rw [getD_set_ne _ _ _ _ _ h]
  · by_cases he : r.toNat = r'.toNat
    · rw [← he]
      by_cases hr : r.toNat < b.length
      · rw [getD_set_self _ _ _ _ hr, getD_set_ne _ _ _ _ _ h]
      · rw [List.set_eq_of_length_le (by omega)]
    · rw [getD_set_ne _ _ _ _ _ he]

lemma getD_map_range {α : Type} (f : Nat → α) (d : α) (i n : Nat) (h : i < n) :
    (((List.range n).map f).getD i d) = f i := by
  rw [List.getD_eq_getElem?_getD, List.getElem?_eq_getElem (by simpa using h)]
  simp

lemma cell_deep_copy (b : Board) (r c : Int) (h : in_bounds r c = true) :
    cell (deep_copy_board b) r c = cell b r c := by
  rw [in_bounds_iff] at h
  have hr : r.toNat < 8 := by omega
  have hc : c.toNat < 8 := by omega
  simp only [cell, deep_copy_board]
  rw [getD_map_range _ _ _ _ hr, getD_map_range _ _ _ _ hc, Int.toNat_ofNat, Int.toNat_ofNat]

lemma range_map_getD {α : Type} (l : List α) (d : α) :
    (List.range l.length).map (fun i => l.getD i d) = l := by
  induction l with
  | nil => simp
  | cons a t ih =>
    rw [List.length_cons, List.range_succ_eq_map, List.map_cons, List.map_map]
    simp only [List.getD_cons_zero]
    have hfun : ((fun i => (a :: t).getD i d) ∘ Nat.succ) = fun i => t.getD i d := by
      funext i
      simp
    rw [hfun, ih]

lemma shapeOk_length {b : Board} (h : shapeOk b = true) : b.length = 8 := by
  simp only [shapeOk, Bool.and_eq_true, beq_iff_eq] at h
  exact h.1

lemma shapeOk_row {b : Board} (h : shapeOk b = true) (i : Nat) (hi : i < b.length) :
    (b.getD i []).length = 8 := by
  simp only [shapeOk, Bool.and_eq_true, beq_iff_eq, List.all_eq_true] at h
  rw [List.getD_eq_getElem b [] hi]
  exact h.2 _ (List.getElem_mem hi)

lemma deep_copy_eq_of_shape {b : Board} (h : shapeOk b = true) : deep_copy_board b = b := by
  have hl := shapeOk_length h
  unfold deep_copy_board
  have step1 : ∀ r ∈ List.range 8,
      ((List.range 8).map fun (c : Nat) => cell b r c) = b.getD r [] := by
    intro r hr
    have hr8 : r < 8 := List.mem_range.1 hr
    have hrow : (b.getD r []).length = 8 := shapeOk_row h r (by omega)
    have hcells : ∀ c ∈ List.range 8, cell b (r : Int) (c : Int) = (b.getD r []).getD c none := by
      intro c _
      simp [cell]
    rw [List.map_congr_left hcells, ← hrow, range_map_getD]
  rw [List.map_congr_left step1, ← hl, range_map_getD]

lemma shapeOk_deep_copy (b : Board) : shapeOk (deep_copy_board b) = true := by
  simp only [shapeOk, Bool.and_eq_true, beq_iff_eq, List.all_eq_true]
  constructor
  · simp [deep_copy_board]
  · intro row hrow
    simp only [deep_copy_board, List.mem_map] at hrow
    rcases hrow with ⟨r, _, hr⟩
    rw [← hr]
    simp

lemma shapeOk_setCell {b : Board} (r c : Int) (v : Option Piece) (h : shapeOk b = true) :
    shapeOk (setCell b r c v) = true := by
  by_cases hr : r.toNat < b.length
  · simp only [shapeOk, Bool.and_eq_true, beq_iff_eq, List.all_eq_true] at h ⊢
    refine ⟨by simpa [setCell] using h.1, ?_⟩
    intro row hrow
    simp only [setCell] at hrow
    rcases List.mem_or_eq_of_mem_set hrow with hmem | heq
    · exact h.2 _ hmem
    · subst heq
      rw [List.length_set, List.getD_eq_getElem b [] hr]
      exact h.2 _ (List.getElem_mem hr)
  · simp only [setCell]
    rw [List.set_eq_of_length_le (by omega)]
    exact h

lemma shape_bounds {b : Board} (h : shapeOk b = true) {r c : Int}
    (hb : in_bounds r c = true) :
    r.toNat < b.length ∧ c.toNat < (b.getD r.toNat []).length := by
  rw [in_bounds_iff] at hb
  have h1 : r.toNat < b.length := by
    rw [shapeOk_length h]
    omega
  refine ⟨h1, ?_⟩
  rw [shapeOk_row h _ h1]
  omega

lemma toNat_pair_ne {r1 c1 r2 c2 : Int} (h1 : in_bounds r1 c1 = true)
    (h2 : in_bounds r2 c2 = true) (hne : ((r1, c1) : Square) ≠ (r2, c2)) :
    r1.toNat ≠ r2.toNat ∨ c1.toNat ≠ c2.toNat := by
  rw [in_bounds_iff] at h1 h2
  by_contra hcon
  push_neg at hcon
  refine hne ?_
  have hr : r1 = r2 := by omega
  have hc : c1 = c2 := by omega
  rw [hr, hc]

/-! ### make_move unfolding -/

lemma make_move_eq (b : Board) (r1 c1 r2 c2 : Int) (p : Piece)
    (hp : cell (deep_copy_board b) r1 c1 = some p) :
    make_move b ((r1, c1), (r2, c2)) =
      setCell (setCell (deep_copy_board b) r1 c1 none) r2 c2
        (if p.type = PieceType.P ∧ r2 = (if p.color = Color.w then (0 : Int) else 7)
         then some ⟨PieceType.Q, p.color⟩ else some p) := by
  simp only [make_move, hp]
  by_cases hcond :
      p.type = PieceType.P ∧ r2 = (if p.color = Color.w then (0 : Int) else 7) <;>
    simp [hcond]

lemma make_move_eq_none (b : Board) (r1 c1 r2 c2 : Int)
    (hp : cell (deep_copy_board b) r1 c1 = none) :
    make_move b ((r1, c1), (r2, c2)) =
      setCell (setCell (deep_copy_board b) r1 c1 none) r2 c2 none := by
  simp only [make_move, hp]

/-! ### Claim theorems: legal move filter and executor purity -/

/-- C1: generate_legal_moves is exactly the subset of the pseudo-legal moves
whose simulated successor does not leave the mover in check. -/
theorem legal_moves_filter_spec (b : Board) (color : Color) (m : Move) :
    m ∈ generate_legal_moves b color ↔
      m ∈ generate_pseudo_legal_moves b color ∧
        is_in_check (make_move b m) color = false := by
  simp [generate_legal_moves, List.mem_filter]

/-- C8: threading the input board explicitly through the statements of
make_move returns it unchanged alongside the freshly built result board. -/
theorem make_move_preserves_input (b : Board) (m : Move) :
    make_move_exec b m = (b, make_move b m) := by
  simp only [make_move_exec, make_move]
  cases hp : cell (deep_copy_board b) m.1.1 m.1.2 with
  | none => rfl
  | some p =>
      by_cases hcond :
          p.type = PieceType.P ∧ m.2.1 = (if p.color = Color.w then (0 : Int) else 7) <;>
        simp [hcond]

end ChessPy

namespace ChessPy

/-! ### Piece counting -/

lemma sum_set_add (l : List Nat) (i : Nat) (v : Nat) (h : i < l.length) :
    (l.set i v).sum + l[i] = l.sum + v := by
  induction l generalizing i with
  | nil => simp at h
  | cons a t ih =>
    cases i with
    | zero => simp only [List.set_cons_zero, List.sum_cons, List.getElem_cons_zero]; omega
    | succ i =>
        have h' : i < t.length := by simpa using h
        simp only [List.set_cons_succ, List.sum_cons, List.getElem_cons_succ]
        have := ih i h'
        omega

lemma countP_set_add (l : List (Option Piece)) (i : Nat) (a : Option Piece)
    (h : i < l.length) :
    (l.set i a).countP (fun p => p.isSome) + (if (l.getD i none).isSome then 1 else 0)
      = l.countP (fun p => p.isSome) + (if a.isSome then 1 else 0) := by
  rw [List.countP_set _ _ _ _ h, List.getD_eq_getElem l none h]
  have hb := List.boole_getElem_le_countP (fun p => p.isSome) l i h
  by_cases h1 : l[i].isSome = true <;> by_cases h2 : a.isSome = true <;>
    simp only [h1, h2, if_true, if_false] at hb ⊢ <;> omega

lemma count_pieces_setCell (b : Board) (r c : Int) (v : Option Piece)
    (hr : r.toNat < b.length) (hc : c.toNat < (b.getD r.toNat []).length) :
    count_pieces (setCell b r c v) + (if (cell b r c).isSome then 1 else 0)
      = count_pieces b + (if v.isSome then 1 else 0) := by
  simp only [count_pieces, setCell, cell, List.map_set]
  have hR : r.toNat < (b.map fun row => row.countP fun p => p.isSome).length := by
    simpa using hr
  have hsum := sum_set_add (b.map fun row => row.countP fun p => p.isSome) r.toNat
    (((b.getD r.toNat []).set c.toNat v).countP fun p => p.isSome) hR
  have hget : (b.map fun row => row.countP fun p => p.isSome)[r.toNat] =
      (b.getD r.toNat []).countP fun p => p.isSome := by
    rw [List.getElem_map]
    congr 1
    rw [List.getD_eq_getElem b [] hr]
  rw [hget] at hsum
  have hcnt := countP_set_add (b.getD r.toNat []) c.toNat v hc
  omega

/-! ### Claim theorems: Move Executor -/

/-- C3 (confirmed): make_move keeps the total piece count, or lowers it by
exactly one when the destination square was occupied. -/
theorem make_move_piece_count (b : Board) (r1 c1 r2 c2 : Int) (p : Piece)
    (hs : shapeOk b = true) (h1 : in_bounds r1 c1 = true) (h2 : in_bounds r2 c2 = true)
    (hp : cell b r1 c1 = some p) :
    count_pieces (make_move b ((r1, c1), (r2, c2))) = count_pieces b ∨
      (count_pieces (make_move b ((r1, c1), (r2, c2))) + 1 = count_pieces b ∧
        (cell b r2 c2).isSome = true) := by
  have hdc : deep_copy_board b = b := deep_copy_eq_of_shape hs
  have hp' : cell (deep_copy_board b) r1 c1 = some p := by rw [hdc]; exact hp
  have hmm := make_move_eq b r1 c1 r2 c2 p hp'
  rw [hdc] at hmm
  obtain ⟨hr1, hc1⟩ := shape_bounds hs h1
  have hs1 : shapeOk (setCell b r1 c1 (none : Option Piece)) = true :=
    shapeOk_setCell _ _ _ hs
  obtain ⟨hr2, hc2⟩ := shape_bounds hs1 h2
  have e1 := count_pieces_setCell b r1 c1 none hr1 hc1
  rw [hp] at e1
  simp at e1
  set V := (if p.type = PieceType.P ∧ r2 = (if p.color = Color.w then (0 : Int) else 7)
    then some (⟨PieceType.Q, p.color⟩ : Piece) else some p) with hV
  have hVs : V.isSome = true := by
    rw [hV]
    by_cases hcond : p.type = PieceType.P ∧ r2 = (if p.color = Color.w then (0 : Int) else 7) <;>
      simp [hcond]
  have e2 := count_pieces_setCell (setCell b r1 c1 none) r2 c2 V hr2 hc2
  simp only [hVs] at e2
  simp at e2
  rw [hmm]
  by_cases heq : ((r1, c1) : Square) = (r2, c2)
  · rw [Prod.mk.injEq] at heq
    obtain ⟨ha, hb2⟩ := heq
    subst ha
    subst hb2
    have hcend : cell (setCell b r1 c1 (none : Option Piece)) r1 c1 = none :=
      cell_setCell_self b r1 c1 none hr1 hc1
    rw [hcend] at e2
    simp at e2
    left
    omega
  · have hne := toNat_pair_ne h1 h2 heq
    have hcend : cell (setCell b r1 c1 (none : Option Piece)) r2 c2 = cell b r2 c2 :=
      cell_setCell_ne b r1 c1 r2 c2 none hne
    rw [hcend] at e2
    by_cases hocc : (cell b r2 c2).isSome = true
    · right
      refine ⟨?_, hocc⟩
      simp only [hocc] at e2
      simp at e2
      omega
    · left
      simp only [Bool.not_eq_true] at hocc
      simp only [hocc] at e2
      simp at e2
      omega

/-- C3 witness: the opening pawn push keeps all 32 pieces. -/
theorem make_move_piece_count_witness :
    count_pieces (make_move initial_board ((6, 4), (5, 4))) = count_pieces initial_board ∨
      (count_pieces (make_move initial_board ((6, 4), (5, 4))) + 1
          = count_pieces initial_board ∧
        (cell initial_board 5 4).isSome = true) :=
  make_move_piece_count initial_board 6 4 5 4 ⟨PieceType.P, Color.w⟩
    (by decide) (by decide) (by decide) (by decide)

/-- C2 (amended; see the counterexample for the degenerate from = to move):
make_move clears the source square whenever it differs from the destination,
and places on the destination a Queen of the mover's color when a pawn reaches
its final row, the moved piece itself otherwise. -/
theorem make_move_result_spec (b : Board) (r1 c1 r2 c2 : Int) (p : Piece)
    (h1 : in_bounds r1 c1 = true) (h2 : in_bounds r2 c2 = true)
    (hp : cell b r1 c1 = some p) :
    (((r1, c1) : Square) ≠ (r2, c2) →
        cell (make_move b ((r1, c1), (r2, c2))) r1 c1 = none) ∧
    (p.type = PieceType.P ∧ r2 = (if p.color = Color.w then (0 : Int) else 7) →
        cell (make_move b ((r1, c1), (r2, c2))) r2 c2 = some ⟨PieceType.Q, p.color⟩) ∧
    (¬(p.type = PieceType.P ∧ r2 = (if p.color = Color.w then (0 : Int) else 7)) →
        cell (make_move b ((r1, c1), (r2, c2))) r2 c2 = some p) := by
  have hp' : cell (deep_copy_board b) r1 c1 = some p := by
    rw [cell_deep_copy b r1 c1 h1]
    exact hp
  have hmm := make_move_eq b r1 c1 r2 c2 p hp'
  have hs0 := shapeOk_deep_copy b
  obtain ⟨hr1, hc1⟩ := shape_bounds hs0 h1
  have hs1 : shapeOk (setCell (deep_copy_board b) r1 c1 (none : Option Piece)) = true :=
    shapeOk_setCell _ _ _ hs0
  obtain ⟨hr2, hc2⟩ := shape_bounds hs1 h2
  refine ⟨?_, ?_, ?_⟩
  · intro hne
    rw [hmm, cell_setCell_ne _ _ _ _ _ _ (toNat_pair_ne h2 h1 (Ne.symm hne))]
    exact cell_setCell_self _ _ _ _ hr1 hc1
  · intro hcond
    rw [hmm, cell_setCell_self _ _ _ _ hr2 hc2, if_pos hcond]
  · intro hcond
    rw [hmm, cell_setCell_self _ _ _ _ hr2 hc2, if_neg hcond]

/-- C2 counterexample: a degenerate move whose source equals its destination
leaves the moved piece on the (shared) source square, so the claim read over
every move with an occupied source square fails. -/
theorem make_move_source_clear_counterexample :
    cell initial_board 0 0 = some ⟨PieceType.R, Color.b⟩ ∧
      cell (make_move initial_board ((0, 0), (0, 0))) 0 0 ≠ none := by
  exact ⟨by decide, by decide⟩

/-- C2 witness: the white pawn on rank 1 promotes on rank 0, leaving the
source square empty. -/
theorem make_move_result_spec_witness :
    cell (make_move promo_board ((1, 0), (0, 0))) 0 0 = some ⟨PieceType.Q, Color.w⟩ ∧
      cell (make_move promo_board ((1, 0), (0, 0))) 1 0 = none := by
  have h := make_move_result_spec promo_board 1 0 0 0 ⟨PieceType.P, Color.w⟩
    (by decide) (by decide) (by decide)
  exact ⟨h.2.1 (by decide), h.1 (by decide)⟩

/-- C10 (confirmed): on an empty source square, make_move still returns a
board, with both the source and the destination square empty afterwards. -/
theorem make_move_empty_source (b : Board) (r1 c1 r2 c2 : Int)
    (h1 : in_bounds r1 c1 = true) (h2 : in_bounds r2 c2 = true)
    (hp : cell b r1 c1 = none) :
    cell (make_move b ((r1, c1), (r2, c2))) r1 c1 = none ∧
      cell (make_move b ((r1, c1), (r2, c2))) r2 c2 = none := by
  have hp' : cell (deep_copy_board b) r1 c1 = none := by
    rw [cell_deep_copy b r1 c1 h1]
    exact hp
  have hmm := make_move_eq_none b r1 c1 r2 c2 hp'
  have hs0 := shapeOk_deep_copy b
  obtain ⟨hr1, hc1⟩ := shape_bounds hs0 h1
  have hs1 : shapeOk (setCell (deep_copy_board b) r1 c1 (none : Option Piece)) = true :=
    shapeOk_setCell _ _ _ hs0
  obtain ⟨hr2, hc2⟩ := shape_bounds hs1 h2
  constructor
  · rw [hmm]
    by_cases heq : ((r1, c1) : Square) = (r2, c2)
    · rw [Prod.mk.injEq] at heq
      obtain ⟨ha, hb2⟩ := heq
      subst ha
      subst hb2
      exact cell_setCell_self _ _ _ _ hr2 hc2
    · rw [cell_setCell_ne _ _ _ _ _ _ (toNat_pair_ne h2 h1 (Ne.symm heq))]
      exact cell_setCell_self _ _ _ _ hr1 hc1
  · rw [hmm]
    exact cell_setCell_self _ _ _ _ hr2 hc2

/-- C10 witness: a move from an empty square of the empty board. -/
theorem make_move_empty_source_witness :
    cell (make_move empty_board ((0, 0), (1, 1))) 0 0 = none ∧
      cell (make_move empty_board ((0, 0), (1, 1))) 1 1 = none :=
  make_move_empty_source empty_board 0 0 1 1 (by decide) (by decide) (by decide)

end ChessPy

namespace ChessPy

/-! ### Claim theorems: check detection -/

/-- C4: is_in_check holds exactly when find_king locates a king whose square
the enemy attacks, and find_king comes up empty exactly when no king of the
color sits on any in-bounds square (so an absent king is never in check). -/
theorem is_in_check_spec (b : Board) (c : Color) :
    (is_in_check b c = true ↔
      ∃ k, find_king b c = some k ∧ k ∈ squares_attacked_by b (enemy c)) ∧
    (find_king b c = none ↔
      ∀ r cc : Int, in_bounds r cc = true → cell b r cc ≠ some ⟨PieceType.K, c⟩) := by
  constructor
  · cases hk : find_king b c with
    | none => simp [is_in_check, hk]
    | some k => simp [is_in_check, hk]
  · unfold find_king
    rw [List.head?_eq_none_iff, List.eq_nil_iff_forall_not_mem]
    constructor
    · intro h r cc hin hcell
      rw [in_bounds_iff] at hin
      refine h ((r, cc) : Square) ?_
      rw [List.mem_flatMap]
      refine ⟨r.toNat, by rw [List.mem_range]; omega, ?_⟩
      rw [List.mem_flatMap]
      refine ⟨cc.toNat, by rw [List.mem_range]; omega, ?_⟩
      have hcast : cell b (r.toNat : Int) (cc.toNat : Int) = cell b r cc := rfl
      rw [hcast, hcell]
      have hx : ((r, cc) : Square) = ((r.toNat : Int), (cc.toNat : Int)) := by
        rw [Prod.mk.injEq]
        constructor <;> omega
      rw [hx]
      simp
    · intro h sq hsq
      rw [List.mem_flatMap] at hsq
      obtain ⟨r, hr, hsq⟩ := hsq
      rw [List.mem_flatMap] at hsq
      obtain ⟨cc, hcc, hsq⟩ := hsq
      rw [List.mem_range] at hr hcc
      rcases hcell : cell b (r : Int) (cc : Int) with _ | p
      · simp only [hcell] at hsq
        simp at hsq
      · simp only [hcell] at hsq
        by_cases hkc : p.type = PieceType.K ∧ p.color = c
        · have hpk : p = ⟨PieceType.K, c⟩ := by
            cases p
            simp only [Piece.mk.injEq]
            exact hkc
          have hbound : in_bounds (r : Int) (cc : Int) = true := by
            rw [in_bounds_iff]
            omega
          exact absurd (hpk ▸ hcell) (h _ _ hbound)
        · rw [if_neg hkc] at hsq
          simp at hsq

/-- C4 witness: the kingless empty board is reported as not in check. -/
theorem is_in_check_spec_witness : is_in_check empty_board Color.w = false := by
  by_contra hcon
  rw [Bool.not_eq_false] at hcon
  obtain ⟨k, hk, _⟩ := (is_in_check_spec empty_board Color.w).1.1 hcon
  rw [show find_king empty_board Color.w = none from rfl] at hk
  exact Option.noConfusion hk

/-! ### Claim theorems: pseudo-legal move well-formedness -/

lemma move_ray_mem (b : Board) (color : Color) (r c dr dc : Int) :
    ∀ (fuel : Nat) (rr cc : Int) (m : Move),
      m ∈ move_ray b color r c rr cc dr dc fuel →
        m.1 = (r, c) ∧ in_bounds m.2.1 m.2.2 = true ∧
          (∀ q : Piece, cell b m.2.1 m.2.2 = some q → q.color ≠ color) := by
  intro fuel
  induction fuel with
  | zero =>
      intro rr cc m hm
      simp [move_ray] at hm
  | succ fuel ih =>
      intro rr cc m hm
      simp only [move_ray] at hm
      by_cases hin : in_bounds rr cc = true
      · rw [if_pos hin] at hm
        rcases hcell : cell b rr cc with _ | q0
        · simp only [hcell] at hm
          rcases List.mem_cons.1 hm with rfl | hm2
          · refine ⟨rfl, hin, ?_⟩
            intro q hq
            rw [hcell] at hq
            exact Option.noConfusion hq
          · exact ih _ _ _ hm2
        · simp only [hcell] at hm
          by_cases hq0 : q0.color ≠ color
          · rw [if_pos hq0, List.mem_singleton] at hm
            subst hm
            refine ⟨rfl, hin, ?_⟩
            intro q hq
            rw [hcell] at hq
            cases hq
            exact hq0
          · rw [if_neg hq0] at hm
            simp at hm
      · rw [if_neg hin] at hm
        simp at hm

lemma filterMap_offsets_mem (offs : List (Int × Int)) (b : Board) (color : Color)
    (r c : Int) (m : Move)
    (hm : m ∈ offs.filterMap fun (dr, dc) =>
      if in_bounds (r + dr) (c + dc) then
        match cell b (r + dr) (c + dc) with
        | none => some ((r, c), (r + dr, c + dc))
        | some q => if q.color ≠ color then some ((r, c), (r + dr, c + dc)) else none
      else none) :
    m.1 = (r, c) ∧ in_bounds m.2.1 m.2.2 = true ∧
      (∀ q : Piece, cell b m.2.1 m.2.2 = some q → q.color ≠ color) := by
  rw [List.mem_filterMap] at hm
  obtain ⟨a, _, ha⟩ := hm
  rcases a with ⟨dr, dc⟩
  dsimp only at ha
  by_cases hin : in_bounds (r + dr) (c + dc) = true
  · rw [if_pos hin] at ha
    rcases hcell : cell b (r + dr) (c + dc) with _ | q0
    · simp only [hcell] at ha
      cases ha
      refine ⟨rfl, hin, ?_⟩
      intro q hq
      rw [hcell] at hq
      exact Option.noConfusion hq
    · simp only [hcell] at ha
      by_cases hq0 : q0.color ≠ color
      · rw [if_pos hq0] at ha
        cases ha
        refine ⟨rfl, hin, ?_⟩
        intro q hq
        rw [hcell] at hq
        cases hq
        exact hq0
      · rw [if_neg hq0] at ha
        exact Option.noConfusion ha
  · rw [if_neg hin] at ha
    exact Option.noConfusion ha

lemma pawn_moves_mem (b : Board) (color : Color) (r c : Int) (m : Move)
    (hm : m ∈ pawn_moves b color r c) :
    m.1 = (r, c) ∧ in_bounds m.2.1 m.2.2 = true ∧
      (∀ q : Piece, cell b m.2.1 m.2.2 = some q → q.color ≠ color) := by
  unfold pawn_moves at hm
  rw [List.mem_append] at hm
  rcases hm with hm | hm
  · by_cases hfwd : in_bounds (r + (if color = Color.w then (-1 : Int) else 1)) c = true ∧
        cell b (r + (if color = Color.w then (-1 : Int) else 1)) c = none
    · rw [if_pos hfwd] at hm
      rcases List.mem_cons.1 hm with rfl | hm2
      · refine ⟨rfl, hfwd.1, ?_⟩
        intro q hq
        rw [hfwd.2] at hq
        exact Option.noConfusion hq
      · by_cases htwo : r = (if color = Color.w then (6 : Int) else 1) ∧
            in_bounds (r + 2 * (if color = Color.w then (-1 : Int) else 1)) c = true ∧
            cell b (r + 2 * (if color = Color.w then (-1 : Int) else 1)) c = none
        · rw [if_pos htwo, List.mem_singleton] at hm2
          subst hm2
          refine ⟨rfl, htwo.2.1, ?_⟩
          intro q hq
          rw [htwo.2.2] at hq
          exact Option.noConfusion hq
        · rw [if_neg htwo] at hm2
          simp at hm2
    · rw [if_neg hfwd] at hm
      simp at hm
  · rw [List.mem_filterMap] at hm
    obtain ⟨dc, _, hdc⟩ := hm
    by_cases hin : in_bounds (r + (if color = Color.w then (-1 : Int) else 1)) (c + dc) = true
    · rw [if_pos hin] at hdc
      rcases hcell : cell b (r + (if color = Color.w then (-1 : Int) else 1)) (c + dc)
          with _ | q0
      · simp only [hcell] at hdc
        exact Option.noConfusion hdc
      · simp only [hcell] at hdc
        by_cases hq0 : q0.color ≠ color
        · rw [if_pos hq0] at hdc
          cases hdc
          refine ⟨rfl, hin, ?_⟩
          intro q hq
          rw [hcell] at hq
          cases hq
          exact hq0
        · rw [if_neg hq0] at hdc
          exact Option.noConfusion hdc
    · rw [if_neg hin] at hdc
      exact Option.noConfusion hdc

lemma slider_moves_mem (b : Board) (color : Color) (r c : Int) (t : PieceType) (m : Move)
    (hm : m ∈ slider_moves b color r c t) :
    m.1 = (r, c) ∧ in_bounds m.2.1 m.2.2 = true ∧
      (∀ q : Piece, cell b m.2.1 m.2.2 = some q → q.color ≠ color) := by
  unfold slider_moves at hm
  rw [List.mem_flatMap] at hm
  obtain ⟨a, _, ha⟩ := hm
  rcases a with ⟨dr, dc⟩
  exact move_ray_mem b color r c dr dc 8 (r + dr) (c + dc) m ha

lemma piece_moves_mem (b : Board) (color : Color) (r c : Int) (t : PieceType) (m : Move)
    (hm : m ∈ piece_moves b color r c t) :
    m.1 = (r, c) ∧ in_bounds m.2.1 m.2.2 = true ∧
      (∀ q : Piece, cell b m.2.1 m.2.2 = some q → q.color ≠ color) := by
  cases t with
  | P => exact pawn_moves_mem b color r c m hm
  | N => exact filterMap_offsets_mem knight_offsets b color r c m hm
  | B => exact slider_moves_mem b color r c PieceType.B m hm
  | R => exact slider_moves_mem b color r c PieceType.R m hm
  | Q => exact slider_moves_mem b color r c PieceType.Q m hm
  | K => exact filterMap_offsets_mem king_offsets b color r c m hm

/-- C9: every generated pseudo-legal move is well formed: in-bounds squares,
a friendly piece on the source, no friendly piece on the target. -/
theorem pseudo_legal_moves_wf (b : Board) (color : Color) (m : Move)
    (hm : m ∈ generate_pseudo_legal_moves b color) : move_wf b color m := by
  unfold generate_pseudo_legal_moves at hm
  rw [List.mem_flatMap] at hm
  obtain ⟨r, hr, hm⟩ := hm
  rw [List.mem_flatMap] at hm
  obtain ⟨cc, hcc, hm⟩ := hm
  rw [List.mem_range] at hr hcc
  rcases hcell : cell b (r : Int) (cc : Int) with _ | p
  · simp only [hcell] at hm
    simp at hm
  · simp only [hcell] at hm
    by_cases hcol : p.color = color
    · rw [if_pos hcol] at hm
      have htrip := piece_moves_mem b color (r : Int) (cc : Int) p.type m hm
      have hfrom : m.1.1 = (r : Int) ∧ m.1.2 = (cc : Int) := by
        rw [Prod.ext_iff] at htrip
        exact ⟨htrip.1.1, htrip.1.2⟩
      refine ⟨?_, htrip.2.1, ?_, htrip.2.2⟩
      · rw [hfrom.1, hfrom.2, in_bounds_iff]
        omega
      · exact ⟨p, by rw [hfrom.1, hfrom.2]; exact hcell, hcol⟩
    · rw [if_neg hcol] at hm
      simp at hm

/-- C9 witness: the opening pawn push from (6, 0) is well formed. -/
theorem pseudo_legal_moves_wf_witness :
    move_wf initial_board Color.w (((6 : Int), (0 : Int)), ((5 : Int), (0 : Int))) :=
  pseudo_legal_moves_wf initial_board Color.w (((6 : Int), (0 : Int)), ((5 : Int), (0 : Int)))
    (by decide)

end ChessPy

namespace ChessPy

/-! ### Claim theorems: opponent move selector and concrete positions -/

/-- C5: for every modelled random draw, ai_choose_move returns none exactly
when black has no legal move; any returned move is legal, and it is a
capturing move whenever some legal capturing move exists. -/
theorem ai_choose_move_spec (b : Board) (k : Nat) :
    (ai_choose_move b k = none ↔ generate_legal_moves b Color.b = []) ∧
    (∀ m : Move, ai_choose_move b k = some m →
      m ∈ generate_legal_moves b Color.b ∧
        ((generate_legal_moves b Color.b).filter
            (fun m2 => (cell b m2.2.1 m2.2.2).isSome) ≠ [] →
          m ∈ (generate_legal_moves b Color.b).filter
            (fun m2 => (cell b m2.2.1 m2.2.2).isSome))) := by
  simp only [ai_choose_move]
  by_cases hemp : (generate_legal_moves b Color.b).isEmpty = true
  · rw [if_pos hemp]
    have hnil := List.isEmpty_iff.1 hemp
    refine ⟨by simp [hnil], ?_⟩
    intro m hm
    exact Option.noConfusion hm
  · rw [if_neg hemp]
    have hne : generate_legal_moves b Color.b ≠ [] := by
      intro h
      rw [h] at hemp
      exact hemp rfl
    set moves := generate_legal_moves b Color.b with hM
    set caps := moves.filter (fun m2 => (cell b m2.2.1 m2.2.2).isSome) with hC
    set pool := if caps.isEmpty then moves else caps with hP
    have hpoolne : pool ≠ [] := by
      rw [hP]
      by_cases hce : caps.isEmpty = true
      · rw [if_pos hce]
        exact hne
      · rw [if_neg hce]
        intro hnil
        exact hce (by rw [hnil]; rfl)
    have hlen : k % pool.length < pool.length :=
      Nat.mod_lt _ (List.length_pos.2 hpoolne)
    have hget : pool[k % pool.length]? = some pool[k % pool.length] :=
      List.getElem?_eq_getElem hlen
    constructor
    · rw [hget]
      constructor
      · intro h
        exact Option.noConfusion h
      · intro h
        exact absurd h hne
    · intro m hm
      rw [hget] at hm
      have hmem : m ∈ pool := by
        have hmp : pool[k % pool.length] = m := Option.some.inj hm
        rw [← hmp]
        exact List.getElem_mem hlen
      constructor
      · rw [hP] at hmem
        by_cases hce : caps.isEmpty = true
        · rw [if_pos hce] at hmem
          exact hmem
        · rw [if_neg hce] at hmem
          exact (List.mem_filter.1 hmem).1
      · intro hcne
        have hce : ¬caps.isEmpty = true := by
          rw [List.isEmpty_iff]
          exact hcne
        rw [hP, if_neg hce] at hmem
        exact hmem

/-- C5 witness: with a lone black rook against a lone white pawn, the unique
rook-takes-pawn move is capturing, and it is what the selector returns. -/
theorem ai_choose_move_spec_witness :
    ai_choose_move capture_board 0 = some (((0 : Int), (0 : Int)), ((7 : Int), (0 : Int))) ∧
      (((0 : Int), (0 : Int)), ((7 : Int), (0 : Int))) ∈
        (generate_legal_moves capture_board Color.b).filter
          (fun m2 => (cell capture_board m2.2.1 m2.2.2).isSome) :=
  ⟨by decide,
    ((ai_choose_move_spec capture_board 0).2 _ (by decide)).2 (by decide)⟩

/-- C6: from the initial position White has exactly 20 legal moves — 8 single
pawn pushes, 8 double pawn pushes and 4 knight moves — and neither side is in
check. -/
theorem initial_board_spec :
    (generate_legal_moves initial_board Color.w).length = 20 ∧
    (generate_legal_moves initial_board Color.w).Nodup ∧
    ((generate_legal_moves initial_board Color.w).countP fun m =>
      decide (cell initial_board m.1.1 m.1.2 = some ⟨PieceType.P, Color.w⟩ ∧
        m.1.1 - m.2.1 = 1)) = 8 ∧
    ((generate_legal_moves initial_board Color.w).countP fun m =>
      decide (cell initial_board m.1.1 m.1.2 = some ⟨PieceType.P, Color.w⟩ ∧
        m.1.1 - m.2.1 = 2)) = 8 ∧
    ((generate_legal_moves initial_board Color.w).countP fun m =>
      decide (cell initial_board m.1.1 m.1.2 = some ⟨PieceType.N, Color.w⟩)) = 4 ∧
    is_in_check initial_board Color.w = false ∧
    is_in_check initial_board Color.b = false := by
  refine ⟨by decide, by decide, by decide, by decide, by decide, by decide, by decide⟩

/-- C7: in the pinned position, sliding the white rook off the king's file is
pseudo-legal but not legal, because it exposes the white king. -/
theorem pinned_piece_exists :
    ∃ (b : Board) (c : Color) (m : Move) (p : Piece),
      cell b m.1.1 m.1.2 = some p ∧ p.type ≠ PieceType.K ∧
        m ∈ generate_pseudo_legal_moves b c ∧
        m ∉ generate_legal_moves b c ∧
        is_in_check (make_move b m) c = true :=
  ⟨pinned_board, Color.w, (((6 : Int), (4 : Int)), ((6 : Int), (3 : Int))),
    ⟨PieceType.R, Color.w⟩, by decide, by decide, by decide, by decide, by decide⟩

end ChessPy
